import Mathlib

/-!
Verification of the birthday-date engine of the CRM component
(`src/project/src/components/CRM.jsx`).

The component's date logic is implemented with the dayjs library.  We embed
the library's calendar semantics (proleptic Gregorian calendar, a fixed-offset
time zone, millisecond timestamps) and then translate each engine function
(`getDaysUntilBirthday`, `calculateAge`, `getUpcomingBirthdays`) and each UI
handler the claims mention (`handleDelete`, `loadPeople`) from the source.
-/

set_option maxRecDepth 16384

/-- A calendar date: year, month (1-12), day (1-31). -/
structure Date where
  year : Nat
  month : Nat
  day : Nat
deriving DecidableEq, Repr

/-- Gregorian leap-year rule, as used by the JavaScript `Date` object. -/
def isLeapYear (y : Nat) : Bool :=
  (y % 4 == 0 && y % 100 != 0) || y % 400 == 0

/-- Number of days in a month of a given year (Gregorian calendar). -/
def daysInMonth (y m : Nat) : Nat :=
  if m == 2 then (if isLeapYear y then 29 else 28)
  else if m == 4 || m == 6 || m == 9 || m == 11 then 30
  else 31

/-- Days in months `[1, m)` of year `y` (so `daysBeforeMonth y 1 = 0`). -/
def daysBeforeMonth (y : Nat) : Nat → Nat
  | 0 => 0
  | 1 => 0
  | m + 1 => daysBeforeMonth y m + daysInMonth y m

/-- A calendar date is well-formed. -/
def validDate (d : Date) : Prop :=
  1 ≤ d.year ∧ 1 ≤ d.month ∧ d.month ≤ 12 ∧ 1 ≤ d.day ∧ d.day ≤ daysInMonth d.year d.month

instance (d : Date) : Decidable (validDate d) := by
  unfold validDate; infer_instance

/-- Number of leap years in `[0, y)` (proleptic Gregorian; year 0 is
leap, as in the JavaScript `Date` object). -/
def leapsBefore (y : Nat) : Int :=
  ((y + 3) / 4 : Nat) - ((y + 99) / 100 : Nat) + ((y + 399) / 400 : Nat)

/-- Day number of January 1 of year `y` (day 0 = January 1 of year 0). -/
def yearStart (y : Nat) : Int :=
  365 * (y : Int) + leapsBefore y

/-- Absolute day number of a date (linearisation of the civil calendar). -/
def toDays (d : Date) : Int :=
  yearStart d.year + daysBeforeMonth d.year d.month + ((d.day : Int) - 1)

/-- An instant: a calendar date plus milliseconds elapsed within that day.
This models a dayjs object in a fixed-offset time zone. -/
structure Instant where
  date : Date
  msOfDay : Nat
deriving DecidableEq, Repr

/-- Milliseconds per day (`MILLISECONDS_A_DAY` in dayjs). -/
def msPerDay : Int := 86400000

/-- The timestamp (`valueOf()`) of an instant, in milliseconds. -/
def msValue (i : Instant) : Int :=
  toDays i.date * msPerDay + i.msOfDay

/-- dayjs `.year(v)`: set the year, keeping month and clamping the day to the
length of the resulting month (`$set` sets the day to 1, changes the year,
then restores `min(day, daysInMonth)`).  Feb 29 re-anchored to a non-leap
year therefore becomes Feb 28. -/
def setYear (d : Date) (y : Nat) : Date :=
  { year := y, month := d.month, day := min d.day (daysInMonth y d.month) }

/-- The calendar day after `d` (native `Date` rollover semantics). -/
def nextDay (d : Date) : Date :=
  if d.day < daysInMonth d.year d.month then
    { d with day := d.day + 1 }
  else if d.month < 12 then
    { year := d.year, month := d.month + 1, day := 1 }
  else
    { year := d.year + 1, month := 1, day := 1 }

/-- Add `n` calendar days to a date. -/
def addDays (d : Date) : Nat → Date
  | 0 => d
  | n + 1 => nextDay (addDays d n)

/-- dayjs `.add(n, 'day')`: advance the calendar date, keep the time of day. -/
def addDaysI (i : Instant) (n : Nat) : Instant :=
  { date := addDays i.date n, msOfDay := i.msOfDay }

/-- dayjs `absFloor`: truncation toward zero (`Math.ceil` for negative
values, `Math.floor` otherwise), applied to an integer quotient. -/
def absFloorDiv (n d : Int) : Int :=
  if n < 0 then -((-n) / d) else n / d

/-- dayjs `a.diff(b, 'day')`: truncated whole-day difference of timestamps. -/
def diffDay (a b : Instant) : Int :=
  absFloorDiv (msValue a - msValue b) msPerDay

/-- `getDaysUntilBirthday` from CRM.jsx:
re-anchor the birthday to this year and to next year, pick this year's
occurrence if it is strictly after `today` (timestamp comparison, so the
time of day of `today` participates), otherwise next year's, and return
the truncated whole-day difference. -/
def getDaysUntilBirthday (birthday : Date) (today : Instant) : Int :=
  if msValue (Instant.mk (setYear birthday today.date.year) 0) > msValue today then
    diffDay (Instant.mk (setYear birthday today.date.year) 0) today
  else
    diffDay (Instant.mk (setYear birthday (today.date.year + 1)) 0) today

/-- The occurrence date that `getDaysUntilBirthday` measures to: this year's
re-anchored occurrence when it is strictly after `today`, else next year's.
(The spec calls this operation `nextOccurrence`; in the source it is the
branch structure of `getDaysUntilBirthday`.) -/
def nextOccurrence (birthday : Date) (today : Instant) : Date :=
  if msValue (Instant.mk (setYear birthday today.date.year) 0) > msValue today then
    setYear birthday today.date.year
  else
    setYear birthday (today.date.year + 1)

/-- A person record, restricted to the fields the engine reads. -/
structure Person where
  pid : Nat
  birthday : Date
deriving DecidableEq, Repr

/-- `getUpcomingBirthdays` from CRM.jsx: keep a person when this year's or
next year's re-anchored birthday falls strictly after `today` and strictly
before `today.add(30, 'day')` (strict timestamp comparisons on both sides). -/
def getUpcomingBirthdays (people : List Person) (today : Instant) : List Person :=
  people.filter fun person =>
    (decide (msValue (Instant.mk (setYear person.birthday today.date.year) 0) > msValue today) &&
     decide (msValue (Instant.mk (setYear person.birthday today.date.year) 0) < msValue (addDaysI today 30))) ||
    (decide (msValue (Instant.mk (setYear person.birthday (today.date.year + 1)) 0) > msValue today) &&
     decide (msValue (Instant.mk (setYear person.birthday (today.date.year + 1)) 0) < msValue (addDaysI today 30)))

/-- The zero-based absolute month index of an instant's date, shifted by `n`
months (the quantity native `setMonth` works with). -/
def monthIndex (i : Instant) (n : Int) : Int :=
  (i.date.year : Int) * 12 + ((i.date.month : Int) - 1) + n

/-- dayjs `.add(n, 'month')`: shift the zero-based month index, with native
`setMonth` year rollover (floor division) and the `$set` day clamp. -/
def addMonths (i : Instant) (n : Int) : Instant :=
  Instant.mk
    (Date.mk
      ((monthIndex i n) / 12).toNat
      (((monthIndex i n) % 12).toNat + 1)
      (min i.date.day
        (daysInMonth ((monthIndex i n) / 12).toNat (((monthIndex i n) % 12).toNat + 1))))
    i.msOfDay

/-- The whole-month part of dayjs `monthDiff(a, b)`:
`(b.year() - a.year()) * 12 + (b.month() - a.month())`. -/
def wholeMonthDiff (a bb : Instant) : Int :=
  ((bb.date.year : Int) - (a.date.year : Int)) * 12 +
    ((bb.date.month : Int) - (a.date.month : Int))

/-- dayjs `monthDiff(a, b)`: the signed distance (ms) from the re-anchored
`a` to `b`: `b - a.add(wholeMonthDiff, 'month')`. -/
def anchorGap (a bb : Instant) : Int :=
  msValue bb - msValue (addMonths a (wholeMonthDiff a bb))

/-- dayjs `monthDiff(a, b)`: the length (ms) of the anchor month used to
interpolate — `anchor - anchor2` when `b` lies before the anchor,
`anchor2 - anchor` otherwise. -/
def monthSpan (a bb : Instant) : Int :=
  if anchorGap a bb < 0 then
    msValue (addMonths a (wholeMonthDiff a bb)) -
      msValue (addMonths a (wholeMonthDiff a bb - 1))
  else
    msValue (addMonths a (wholeMonthDiff a bb + 1)) -
      msValue (addMonths a (wholeMonthDiff a bb))

/-- `calculateAge` from CRM.jsx: `dayjs().diff(dayjs(birthday), 'year')`.
dayjs computes `absFloor(monthDiff(now, birthday) / 12)`, where
`monthDiff(a, b)` first mirrors the pair when `a`'s day-of-month is
smaller — `if (a.date() < b.date()) return -monthDiff(b, a)` — and the
unmirrored computation is `-(wholeMonthDiff + anchorGap / monthSpan)`.
As an exact rational the mirrored branch is
`(wholeMonthDiff * monthSpan + anchorGap)` of the swapped pair over
`12 * monthSpan`, and the plain branch the negation of the same shape for
the unswapped pair; both are truncated toward zero. -/
def calculateAge (birthday : Date) (now : Instant) : Int :=
  if now.date.day < birthday.day then
    absFloorDiv
      (wholeMonthDiff (Instant.mk birthday 0) now * monthSpan (Instant.mk birthday 0) now +
        anchorGap (Instant.mk birthday 0) now)
      (12 * monthSpan (Instant.mk birthday 0) now)
  else
    absFloorDiv
      (-(wholeMonthDiff now (Instant.mk birthday 0) * monthSpan now (Instant.mk birthday 0) +
          anchorGap now (Instant.mk birthday 0)))
      (12 * monthSpan now (Instant.mk birthday 0))

/-- Days in months `[1, m)` of a non-leap year, as a closed table
(reference values for `daysBeforeMonth`). -/
def dbmBase : Nat → Nat
  | 0 => 0
  | 1 => 0
  | 2 => 31
  | 3 => 59
  | 4 => 90
  | 5 => 120
  | 6 => 151
  | 7 => 181
  | 8 => 212
  | 9 => 243
  | 10 => 273
  | 11 => 304
  | 12 => 334
  | _ => 365

/-- Number of days in year `y`. -/
def yearLength (y : Nat) : Nat :=
  if isLeapYear y then 366 else 365

/-- Specification-side order: `n`'s month/day strictly precedes `b`'s
month/day within the year. -/
def mdPrecedes (n b : Date) : Bool :=
  n.month < b.month || (n.month == b.month && n.day < b.day)

/-- Specification-side age ("completed birthdays"): whole years from `b` to
`n`, excluding the current year when `n`'s month/day precedes `b`'s. -/
def ageSpec (b n : Date) : Int :=
  ((n.year : Int) - (b.year : Int)) - (if mdPrecedes n b then 1 else 0)

/-- Specification-side order with the day clamped to the end of `n`'s
month: `n`'s month/day strictly precedes `b`'s, except that a birthday
day beyond the end of `n`'s month already counts as reached on that
month's last day (the dayjs anchor clamp; for valid dates this differs
from `mdPrecedes` only for a Feb 29 birthday observed on Feb 28 of a
non-leap year). -/
def mdPrecedesClamped (n b : Date) : Bool :=
  n.month < b.month ||
    (n.month == b.month && n.day < b.day && n.day != daysInMonth n.year n.month)

/-- Specification-side age under the clamp rule: whole years from `b` to
`n`, excluding the current year when `n`'s month/day precedes `b`'s in the
clamped order. -/
def ageSpecClamped (b n : Date) : Int :=
  ((n.year : Int) - (b.year : Int)) - (if mdPrecedesClamped n b then 1 else 0)

/-- The calls the component can issue against the Person entity store. -/
inductive StoreCall where
  | listAll : StoreCall
  | create (p : Person) : StoreCall
  | update (pid : Nat) (p : Person) : StoreCall
  | delete (pid : Nat) : StoreCall
deriving DecidableEq, Repr

/-- Whether a store call mutates the stored person records. -/
def StoreCall.mutates : StoreCall → Bool
  | .listAll => false
  | .create _ => true
  | .update _ _ => true
  | .delete _ => true

/-- Effect of one store call on the stored person records. -/
def applyCall (store : List Person) : StoreCall → List Person
  | .listAll => store
  | .create p => store ++ [p]
  | .update pid p => store.map fun q => if q.pid = pid then p else q
  | .delete pid => store.filter fun q => q.pid ≠ pid

/-- `handleDelete` from CRM.jsx: it logs the id and calls `loadPeople`,
which only issues `Person.list()`; no other endpoint is invoked and the
id itself is only logged. -/
def handleDeleteCalls (_pid : Nat) : List StoreCall :=
  [StoreCall.listAll]

/-- Outcome of the `Person.list()` call as seen by `loadPeople`: a response
with `success` true and data, a response with `success` false, or a thrown
error (caught and logged). -/
inductive ListOutcome where
  | ok (data : List Person) : ListOutcome
  | unsuccessful : ListOutcome
  | thrown : ListOutcome
deriving DecidableEq, Repr

/-- The component state the claims mention: the person list and the
loading flag. -/
structure UIState where
  people : List Person
  loading : Bool
deriving DecidableEq, Repr

/-- `loadPeople` from CRM.jsx: set `loading` to true; replace `people` only
when the response reports success; a thrown error is caught and logged;
finally set `loading` to false (this line runs in every case). -/
def loadPeople (s : UIState) (r : ListOutcome) : UIState :=
  let s1 : UIState := { s with loading := true }
  let s2 : UIState :=
    match r with
    | .ok data => { s1 with people := data }
    | .unsuccessful => s1
    | .thrown => s1
  { s2 with loading := false }

/-- Every month length lies between 28 and 31 days. -/
theorem daysInMonth_bounds (y m : Nat) : 28 ≤ daysInMonth y m ∧ daysInMonth y m ≤ 31 := by
  unfold daysInMonth
  split_ifs <;> omega

/-- Recurrence of `daysBeforeMonth` for months from 1 on. -/
theorem daysBeforeMonth_step (y m : Nat) (hm : 1 ≤ m) :
    daysBeforeMonth y (m + 1) = daysBeforeMonth y m + daysInMonth y m := by
  obtain ⟨k, rfl⟩ : ∃ k, m = k + 1 := ⟨m - 1, by omega⟩
  rfl

/-- In a leap year, `daysBeforeMonth` is the closed table plus one leap day
from March on. -/
theorem daysBeforeMonth_leap (y m : Nat) (hm : m ≤ 13) (hl : isLeapYear y = true) :
    daysBeforeMonth y m = dbmBase m + (if 3 ≤ m then 1 else 0) := by
  interval_cases m <;> simp [daysBeforeMonth, daysInMonth, dbmBase, hl]

/-- In a non-leap year, `daysBeforeMonth` is exactly the closed table. -/
theorem daysBeforeMonth_noleap (y m : Nat) (hm : m ≤ 13) (hl : isLeapYear y = false) :
    daysBeforeMonth y m = dbmBase m := by
  interval_cases m <;> simp [daysBeforeMonth, daysInMonth, dbmBase, hl]

/-- Length of a leap year. -/
theorem yearLength_leap (y : Nat) (hl : isLeapYear y = true) : yearLength y = 366 := by
  simp [yearLength, hl]

/-- Length of a non-leap year. -/
theorem yearLength_noleap (y : Nat) (hl : isLeapYear y = false) : yearLength y = 365 := by
  simp [yearLength, hl]

/-- `daysBeforeMonth` is monotone in the month. -/
theorem daysBeforeMonth_mono (y m k : Nat) (hm : 1 ≤ m) :
    daysBeforeMonth y m ≤ daysBeforeMonth y (m + k) := by
  induction k with
  | zero => exact Nat.le_refl _
  | succ j ih =>
      have hstep := daysBeforeMonth_step y (m + j) (by omega)
      have := (daysInMonth_bounds y (m + j)).1
      rw [show m + (j + 1) = (m + j) + 1 from rfl]
      omega

/-- The Boolean leap-year test, as a proposition on remainders. -/
theorem isLeapYear_iff (y : Nat) :
    isLeapYear y = true ↔ (y % 4 = 0 ∧ y % 100 ≠ 0) ∨ y % 400 = 0 := by
  simp [isLeapYear, Bool.or_eq_true, Bool.and_eq_true, beq_iff_eq, bne_iff_ne]

/-- One more year contributes exactly one leap day when (and only when) the
year just passed is leap. -/
theorem leapsBefore_succ (y : Nat) :
    leapsBefore (y + 1) = leapsBefore y + (if isLeapYear y = true then 1 else 0) := by
  have hiff := isLeapYear_iff y
  unfold leapsBefore
  split_ifs with h
  · have := hiff.mp h
    omega
  · have hnot : ¬((y % 4 = 0 ∧ y % 100 ≠ 0) ∨ y % 400 = 0) :=
      fun hc => h (hiff.mpr hc)
    omega

/-- January 1 advances by exactly the length of the year passed. -/
theorem yearStart_succ (y : Nat) :
    yearStart (y + 1) = yearStart y + (yearLength y : Int) := by
  unfold yearStart yearLength
  rw [leapsBefore_succ y]
  split_ifs <;> push_cast <;> ring

/-- `yearStart` is monotone. -/
theorem yearStart_mono (y1 y2 : Nat) (h : y1 ≤ y2) :
    yearStart y1 ≤ yearStart y2 := by
  induction y2, h using Nat.le_induction with
  | base => exact le_refl _
  | succ n hn ih =>
      have hs := yearStart_succ n
      have hl : (365 : Int) ≤ (yearLength n : Int) := by
        unfold yearLength; split_ifs <;> norm_num
      omega

/-- `nextDay` preserves well-formedness. -/
theorem validDate_nextDay (d : Date) (hd : validDate d) : validDate (nextDay d) := by
  obtain ⟨hy, hm1, hm2, hd1, hd2⟩ := hd
  have h2b := (daysInMonth_bounds d.year (d.month + 1)).1
  have h3b := (daysInMonth_bounds (d.year + 1) 1).1
  unfold nextDay validDate
  split_ifs with h1 h2 <;> simp <;> omega

/-- `nextDay` advances the linearised day count by one. -/
theorem toDays_nextDay (d : Date) (hd : validDate d) : toDays (nextDay d) = toDays d + 1 := by
  obtain ⟨hy, hm1, hm2, hd1, hd2⟩ := hd
  unfold nextDay
  split_ifs with h1 h2
  · simp only [toDays]
    push_cast
    ring
  · have hstep := daysBeforeMonth_step d.year d.month hm1
    simp only [toDays]
    rw [hstep]
    push_cast
    omega
  · have hm12 : d.month = 12 := by omega
    rw [hm12] at h1 hd2
    have hdim : daysInMonth d.year 12 = 31 := rfl
    have hday : d.day = 31 := by omega
    have htab1 : daysBeforeMonth (d.year + 1) 1 = 0 := rfl
    have hys := yearStart_succ d.year
    simp only [toDays, hm12, hday, htab1]
    cases hl : isLeapYear d.year
    · rw [yearLength_noleap d.year hl] at hys
      rw [daysBeforeMonth_noleap d.year 12 (by omega) hl]
      simp only [dbmBase]
      omega
    · rw [yearLength_leap d.year hl] at hys
      rw [daysBeforeMonth_leap d.year 12 (by omega) hl]
      norm_num [dbmBase]
      omega

/-- `addDays` preserves well-formedness. -/
theorem validDate_addDays (d : Date) (hd : validDate d) (n : Nat) :
    validDate (addDays d n) := by
  induction n with
  | zero => exact hd
  | succ k ih => exact validDate_nextDay _ ih

/-- `addDays` advances the linearised day count by `n`. -/
theorem toDays_addDays (d : Date) (hd : validDate d) (n : Nat) :
    toDays (addDays d n) = toDays d + n := by
  induction n with
  | zero => simp [addDays]
  | succ k ih =>
      have hnd := toDays_nextDay (addDays d k) (validDate_addDays d hd k)
      have : addDays d (k + 1) = nextDay (addDays d k) := rfl
      rw [this, hnd, ih]
      push_cast
      ring

/-- dayjs `.add(n, 'day')` shifts the timestamp by exactly `n` days. -/
theorem msValue_addDaysI (i : Instant) (hi : validDate i.date) (n : Nat) :
    msValue (addDaysI i n) = msValue i + n * msPerDay := by
  unfold msValue addDaysI
  simp only []
  rw [toDays_addDays i.date hi n]
  ring

/-- Re-anchoring a valid birthday to the following year lands strictly
later (by at least 334 days, in fact), whatever the day clamping does. -/
theorem toDays_setYear_succ_lt (b : Date) (hb : validDate b) (y : Nat) :
    toDays (setYear b y) < toDays (setYear b (y + 1)) := by
  obtain ⟨hby, hm1, hm2, hd1, hd2⟩ := hb
  have hys := yearStart_succ y
  have b1 := daysInMonth_bounds y b.month
  have b2 := daysInMonth_bounds (y + 1) b.month
  simp only [setYear, toDays]
  cases hl1 : isLeapYear y <;> cases hl2 : isLeapYear (y + 1)
  · rw [daysBeforeMonth_noleap y b.month (by omega) hl1,
      daysBeforeMonth_noleap (y + 1) b.month (by omega) hl2]
    rw [yearLength_noleap y hl1] at hys
    omega
  · rw [daysBeforeMonth_noleap y b.month (by omega) hl1,
      daysBeforeMonth_leap (y + 1) b.month (by omega) hl2]
    rw [yearLength_noleap y hl1] at hys
    split_ifs <;> omega
  · rw [daysBeforeMonth_leap y b.month (by omega) hl1,
      daysBeforeMonth_noleap (y + 1) b.month (by omega) hl2]
    rw [yearLength_leap y hl1] at hys
    split_ifs <;> omega
  · rw [daysBeforeMonth_leap y b.month (by omega) hl1,
      daysBeforeMonth_leap (y + 1) b.month (by omega) hl2]
    rw [yearLength_leap y hl1] at hys
    split_ifs <;> omega

/-- Same statement at the timestamp level (midnight instants). -/
theorem msValue_setYear_succ_lt (b : Date) (hb : validDate b) (y : Nat) :
    msValue (Instant.mk (setYear b y) 0) < msValue (Instant.mk (setYear b (y + 1)) 0) := by
  have h := toDays_setYear_succ_lt b hb y
  show toDays (setYear b y) * msPerDay + ((0 : Nat) : Int) <
    toDays (setYear b (y + 1)) * msPerDay + ((0 : Nat) : Int)
  unfold msPerDay
  omega

/-- A valid date stays before the start of the next year. -/
theorem toDays_lt_yearStart_succ (d : Date) (hd : validDate d) :
    toDays d < yearStart (d.year + 1) := by
  obtain ⟨hy, hm1, hm2, hd1, hd2⟩ := hd
  have hstep := daysBeforeMonth_step d.year d.month hm1
  have hmono := daysBeforeMonth_mono d.year (d.month + 1) (13 - (d.month + 1)) (by omega)
  have hidx : d.month + 1 + (13 - (d.month + 1)) = 13 := by omega
  rw [hidx] at hmono
  have hys := yearStart_succ d.year
  unfold toDays
  cases hl : isLeapYear d.year
  · rw [daysBeforeMonth_noleap d.year 13 (by omega) hl] at hmono
    rw [yearLength_noleap d.year hl] at hys
    simp only [dbmBase] at hmono
    omega
  · rw [daysBeforeMonth_leap d.year 13 (by omega) hl] at hmono
    rw [yearLength_leap d.year hl] at hys
    norm_num [dbmBase] at hmono
    omega

/-- The linearised day count is strictly monotone in the calendar order. -/
theorem toDays_lt_of_dateLt (a c : Date) (ha : validDate a) (hc : validDate c)
    (h : a.year < c.year ∨
      (a.year = c.year ∧ (a.month < c.month ∨ (a.month = c.month ∧ a.day < c.day)))) :
    toDays a < toDays c := by
  obtain ⟨hay, ham1, ham2, had1, had2⟩ := ha
  obtain ⟨hcy, hcm1, hcm2, hcd1, hcd2⟩ := hc
  rcases h with hy | ⟨hy, hm | ⟨hm, hdy⟩⟩
  · have h1 := toDays_lt_yearStart_succ a ⟨hay, ham1, ham2, had1, had2⟩
    have h2 := yearStart_mono (a.year + 1) c.year (by omega)
    unfold toDays at h1 ⊢
    omega
  · have hstep := daysBeforeMonth_step a.year a.month ham1
    have hmono := daysBeforeMonth_mono a.year (a.month + 1) (c.month - (a.month + 1)) (by omega)
    have hidx : a.month + 1 + (c.month - (a.month + 1)) = c.month := by omega
    rw [hidx] at hmono
    unfold toDays
    rw [← hy]
    omega
  · unfold toDays
    rw [← hy, ← hm]
    omega

/-- `absFloor` of an exact multiple of a day recovers the day count. -/
theorem absFloorDiv_mul_msPerDay (k : Int) : absFloorDiv (k * msPerDay) msPerDay = k := by
  unfold absFloorDiv msPerDay
  split_ifs <;> omega

/-- `absFloor` bounds on the 30-day window. -/
theorem absFloorDiv_window (x : Int) (h1 : 0 < x) (h2 : x < 30 * msPerDay) :
    0 ≤ absFloorDiv x msPerDay ∧ absFloorDiv x msPerDay ≤ 29 := by
  unfold absFloorDiv msPerDay at *
  split_ifs <;> omega

/-- Dates in the same month differ by their day fields. -/
theorem toDays_same_ym (y m d1 d2 : Nat) :
    toDays (Date.mk y m d1) - toDays (Date.mk y m d2) = (d1 : Int) - d2 := by
  unfold toDays
  ring

/-- Day distance across one month boundary (months 1-11). -/
theorem toDays_next_month (y m d1 d2 : Nat) (hm1 : 1 ≤ m) :
    toDays (Date.mk y (m + 1) d2) - toDays (Date.mk y m d1) =
      (daysInMonth y m : Int) + d2 - d1 := by
  have hstep := daysBeforeMonth_step y m hm1
  simp only [toDays]
  omega

/-- Day distance from December to the following January. -/
theorem toDays_jan_next (y d1 d2 : Nat) :
    toDays (Date.mk (y + 1) 1 d2) - toDays (Date.mk y 12 d1) = (31 : Int) + d2 - d1 := by
  have hys := yearStart_succ y
  have htab1 : daysBeforeMonth (y + 1) 1 = 0 := rfl
  simp only [toDays, htab1]
  cases hl : isLeapYear y
  · rw [daysBeforeMonth_noleap y 12 (by omega) hl]
    rw [yearLength_noleap y hl] at hys
    simp only [dbmBase]
    omega
  · rw [daysBeforeMonth_leap y 12 (by omega) hl]
    rw [yearLength_leap y hl] at hys
    norm_num [dbmBase]
    omega

/-- `addMonths` lands on the month the index points at, clamping the day. -/
theorem addMonths_eq (a : Instant) (k : Int) (y m : Nat) (hm1 : 1 ≤ m) (hm2 : m ≤ 12)
    (hidx : monthIndex a k = (y : Int) * 12 + ((m : Int) - 1)) :
    addMonths a k =
      Instant.mk (Date.mk y m (min a.date.day (daysInMonth y m))) a.msOfDay := by
  have h1 : ((monthIndex a k) / 12).toNat = y := by rw [hidx]; omega
  have h2 : ((monthIndex a k) % 12).toNat + 1 = m := by rw [hidx]; omega
  unfold addMonths
  rw [h1, h2]

/-- Euclidean division step for the final age computation: a nonnegative
quotient plus a remainder below the (positive) divisor. -/
theorem absFloorDiv_split (S q r : Int) (hS : 0 < S) (h0 : 0 ≤ q) (hr0 : 0 ≤ r)
    (hr1 : r < 12 * S) :
    absFloorDiv (12 * S * q + r) (12 * S) = q := by
  have hN : 0 ≤ 12 * S * q + r := by
    have : 0 ≤ 12 * S * q := mul_nonneg (by linarith) h0
    linarith
  unfold absFloorDiv
  rw [if_neg (not_lt.mpr hN)]
  rw [show 12 * S * q + r = r + 12 * S * q from by ring]
  rw [Int.add_mul_ediv_left r q (by linarith : (12 : Int) * S ≠ 0)]
  rw [Int.ediv_eq_zero_of_lt hr0 hr1]
  ring

/-- The dayjs year-diff arithmetic: `absFloor` of the month interpolation
`(12*dy + D) + s/S` over 12 recovers the completed-years count, for any
fraction `s/S` strictly inside (-1, 1). -/
theorem ageArith (S dy D s : Int) (hS : 0 < S) (hs1 : -S < s) (hs2 : s < S)
    (hD1 : -11 ≤ D) (hD2 : D ≤ 11)
    (hdy1 : 1 ≤ D → 0 ≤ dy) (hdy2 : D ≤ -1 → 1 ≤ dy)
    (hdy3 : D = 0 → 0 ≤ s → 0 ≤ dy) (hdy4 : D = 0 → s < 0 → 1 ≤ dy) :
    absFloorDiv ((12 * dy + D) * S + s) (12 * S) =
      dy - (if D < 0 ∨ (D = 0 ∧ s < 0) then 1 else 0) := by
  rcases lt_trichotomy D 0 with hD | hD | hD
  · have hq := hdy2 (by omega)
    have h1 : 0 ≤ (D + 12) * S + s := by
      nlinarith [mul_nonneg (by omega : (0 : Int) ≤ D + 11) hS.le]
    have h2 : (D + 12) * S + s < 12 * S := by
      nlinarith [mul_nonneg (by omega : (0 : Int) ≤ -D - 1) hS.le]
    have e : (12 * dy + D) * S + s = 12 * S * (dy - 1) + ((D + 12) * S + s) := by ring
    rw [e, absFloorDiv_split S (dy - 1) ((D + 12) * S + s) hS (by omega) h1 h2]
    rw [if_pos (Or.inl hD)]
  · rcases le_or_lt 0 s with hs | hs
    · have hq := hdy3 hD hs
      have e : (12 * dy + D) * S + s = 12 * S * dy + s := by rw [hD]; ring
      rw [e, absFloorDiv_split S dy s hS hq hs (by linarith)]
      rw [if_neg (by omega)]
      omega
    · have hq := hdy4 hD hs
      have h1 : 0 ≤ 12 * S + s := by linarith
      have h2 : 12 * S + s < 12 * S := by linarith
      have e : (12 * dy + D) * S + s = 12 * S * (dy - 1) + (12 * S + s) := by rw [hD]; ring
      rw [e, absFloorDiv_split S (dy - 1) (12 * S + s) hS (by omega) h1 h2]
      rw [if_pos (Or.inr ⟨hD, hs⟩)]
  · have hq := hdy1 (by omega)
    have h1 : 0 ≤ D * S + s := by
      nlinarith [mul_nonneg (by omega : (0 : Int) ≤ D - 1) hS.le]
    have h2 : D * S + s < 12 * S := by
      nlinarith [mul_nonneg (by omega : (0 : Int) ≤ 11 - D) hS.le]
    have e : (12 * dy + D) * S + s = 12 * S * dy + (D * S + s) := by ring
    rw [e, absFloorDiv_split S dy (D * S + s) hS hq h1 h2]
    rw [if_neg (by omega)]
    omega

/-- Final assembly for the age computation: given the anchor gap and the
anchor-month span in explicit form (either interpolation branch of dayjs
`monthDiff`), the truncated `monthDiff/12` equals the completed-years
count. -/
theorem calcAge_assemble (yb mb db yn mn dn t L ad2 : Nat)
    (hbm1 : 1 ≤ mb) (hbm2 : mb ≤ 12) (hnm1 : 1 ≤ mn) (hnm2 : mn ≤ 12)
    (hbd1 : 1 ≤ db) (hbd2 : db ≤ daysInMonth yb mb) (hnd1 : 1 ≤ dn)
    (ht : t < 86400000) (hnoflip : db ≤ dn)
    (hlex : yb < yn ∨ (yb = yn ∧ (mb < mn ∨ (mb = mn ∧ db ≤ dn))))
    (hgap : anchorGap (Instant.mk (Date.mk yn mn dn) t) (Instant.mk (Date.mk yb mb db) 0) =
      ((db : Int) - (min dn (daysInMonth yb mb) : Nat)) * msPerDay - t)
    (had2a : 1 ≤ ad2)
    (hbr :
      (anchorGap (Instant.mk (Date.mk yn mn dn) t) (Instant.mk (Date.mk yb mb db) 0) < 0 ∧
        ad2 ≤ L ∧
        monthSpan (Instant.mk (Date.mk yn mn dn) t) (Instant.mk (Date.mk yb mb db) 0) =
          ((L : Int) + (min dn (daysInMonth yb mb) : Nat) - ad2) * msPerDay) ∨
      (0 ≤ anchorGap (Instant.mk (Date.mk yn mn dn) t) (Instant.mk (Date.mk yb mb db) 0) ∧
        (db : Int) ≤ L ∧ (min dn (daysInMonth yb mb) : Int) ≤ L ∧
        monthSpan (Instant.mk (Date.mk yn mn dn) t) (Instant.mk (Date.mk yb mb db) 0) =
          ((L : Int) + (ad2 : Int) - (min dn (daysInMonth yb mb) : Nat)) * msPerDay)) :
    calculateAge (Date.mk yb mb db) (Instant.mk (Date.mk yn mn dn) t) =
      ageSpec (Date.mk yb mb db) (Date.mk yn mn dn) := by
  have hdimb := daysInMonth_bounds yb mb
  have had1 : 1 ≤ min dn (daysInMonth yb mb) := by omega
  have hadm : min dn (daysInMonth yb mb) ≤ daysInMonth yb mb := Nat.min_le_right _ _
  have hW : wholeMonthDiff (Instant.mk (Date.mk yn mn dn) t) (Instant.mk (Date.mk yb mb db) 0) =
      ((yb : Int) - yn) * 12 + ((mb : Int) - mn) := rfl
  have hCA : calculateAge (Date.mk yb mb db) (Instant.mk (Date.mk yn mn dn) t) =
      absFloorDiv
        ((12 * ((yn : Int) - yb) + ((mn : Int) - mb)) *
            monthSpan (Instant.mk (Date.mk yn mn dn) t) (Instant.mk (Date.mk yb mb db) 0) +
          -anchorGap (Instant.mk (Date.mk yn mn dn) t) (Instant.mk (Date.mk yb mb db) 0))
        (12 * monthSpan (Instant.mk (Date.mk yn mn dn) t) (Instant.mk (Date.mk yb mb db) 0)) := by
    unfold calculateAge
    dsimp only
    rw [if_neg (by omega : ¬dn < db), hW]
    congr 1
    ring
  have hS : 0 < monthSpan (Instant.mk (Date.mk yn mn dn) t) (Instant.mk (Date.mk yb mb db) 0) := by
    rcases hbr with ⟨_, had2b, hsp⟩ | ⟨_, _, hminL, hsp⟩ <;> rw [hsp] <;> unfold msPerDay <;> omega
  have hs1 : -monthSpan (Instant.mk (Date.mk yn mn dn) t) (Instant.mk (Date.mk yb mb db) 0) <
      -anchorGap (Instant.mk (Date.mk yn mn dn) t) (Instant.mk (Date.mk yb mb db) 0) := by
    rcases hbr with ⟨hneg, had2b, hsp⟩ | ⟨hpos, hdbL, hminL, hsp⟩
    · rw [hsp]
      unfold msPerDay at *
      omega
    · rw [hsp, hgap]
      unfold msPerDay at *
      omega
  have hs2 : -anchorGap (Instant.mk (Date.mk yn mn dn) t) (Instant.mk (Date.mk yb mb db) 0) <
      monthSpan (Instant.mk (Date.mk yn mn dn) t) (Instant.mk (Date.mk yb mb db) 0) := by
    rcases hbr with ⟨hneg, had2b, hsp⟩ | ⟨hpos, hdbL, hminL, hsp⟩
    · rw [hsp, hgap]
      unfold msPerDay at *
      omega
    · rw [hsp]
      unfold msPerDay at *
      omega
  have hdy1 : 1 ≤ (mn : Int) - mb → 0 ≤ (yn : Int) - yb := by intro h; omega
  have hdy2 : (mn : Int) - mb ≤ -1 → 1 ≤ (yn : Int) - yb := by intro h; omega
  have hdy3 : (mn : Int) - mb = 0 →
      0 ≤ -anchorGap (Instant.mk (Date.mk yn mn dn) t) (Instant.mk (Date.mk yb mb db) 0) →
      0 ≤ (yn : Int) - yb := by
    intro h1 h2; omega
  have hdy4 : (mn : Int) - mb = 0 →
      -anchorGap (Instant.mk (Date.mk yn mn dn) t) (Instant.mk (Date.mk yb mb db) 0) < 0 →
      1 ≤ (yn : Int) - yb := by
    intro h1 h2
    rw [hgap] at h2
    unfold msPerDay at h2
    omega
  have hfin := ageArith
    (monthSpan (Instant.mk (Date.mk yn mn dn) t) (Instant.mk (Date.mk yb mb db) 0))
    ((yn : Int) - yb) ((mn : Int) - mb)
    (-anchorGap (Instant.mk (Date.mk yn mn dn) t) (Instant.mk (Date.mk yb mb db) 0))
    hS hs1 hs2 (by omega) (by omega) hdy1 hdy2 hdy3 hdy4
  rw [hCA, hfin]
  unfold ageSpec
  dsimp only
  have hmd : mdPrecedes (Date.mk yn mn dn) (Date.mk yb mb db) = true ↔
      (mn < mb ∨ (mn = mb ∧ dn < db)) := by
    simp [mdPrecedes]
  by_cases hP : mn < mb ∨ (mn = mb ∧ dn < db)
  · have hcond : (mn : Int) - mb < 0 ∨ ((mn : Int) - mb = 0 ∧
        -anchorGap (Instant.mk (Date.mk yn mn dn) t) (Instant.mk (Date.mk yb mb db) 0) < 0) := by
      rcases hP with h | ⟨h1, h2⟩
      · exact Or.inl (by omega)
      · refine Or.inr ⟨by omega, ?_⟩
        rw [hgap]
        unfold msPerDay
        omega
    rw [if_pos hcond, if_pos (hmd.mpr hP)]
  · have hcond : ¬((mn : Int) - mb < 0 ∨ ((mn : Int) - mb = 0 ∧
        -anchorGap (Instant.mk (Date.mk yn mn dn) t) (Instant.mk (Date.mk yb mb db) 0) < 0)) := by
      intro hcc
      rw [hgap] at hcc
      unfold msPerDay at hcc
      omega
    rw [if_neg hcond, if_neg (fun hcc => hP (hmd.mp hcc))]

/-- The dayjs year diff (`calculateAge`) equals the completed-birthdays
count, stated on explicit date components. -/
theorem calcAge_core (yb mb db yn mn dn t : Nat)
    (hby : 1 ≤ yb) (hbm1 : 1 ≤ mb) (hbm2 : mb ≤ 12) (hbd1 : 1 ≤ db)
    (hbd2 : db ≤ daysInMonth yb mb)
    (hny : 1 ≤ yn) (hnm1 : 1 ≤ mn) (hnm2 : mn ≤ 12) (hnd1 : 1 ≤ dn)
    (hnd2 : dn ≤ daysInMonth yn mn)
    (ht : t < 86400000) (hnoflip : db ≤ dn)
    (hle : msValue (Instant.mk (Date.mk yb mb db) 0) ≤
      msValue (Instant.mk (Date.mk yn mn dn) t)) :
    calculateAge (Date.mk yb mb db) (Instant.mk (Date.mk yn mn dn) t) =
      ageSpec (Date.mk yb mb db) (Date.mk yn mn dn) := by
  have hdimb := daysInMonth_bounds yb mb
  have hlex : yb < yn ∨ (yb = yn ∧ (mb < mn ∨ (mb = mn ∧ db ≤ dn))) := by
    by_contra hcon
    have hlt : toDays (Date.mk yn mn dn) < toDays (Date.mk yb mb db) := by
      apply toDays_lt_of_dateLt _ _ ⟨hny, hnm1, hnm2, hnd1, hnd2⟩
        ⟨hby, hbm1, hbm2, hbd1, hbd2⟩
      dsimp only
      omega
    unfold msValue msPerDay at hle
    dsimp only at hle
    omega
  have hW : wholeMonthDiff (Instant.mk (Date.mk yn mn dn) t) (Instant.mk (Date.mk yb mb db) 0) =
      ((yb : Int) - yn) * 12 + ((mb : Int) - mn) := rfl
  have hidxA : monthIndex (Instant.mk (Date.mk yn mn dn) t)
      (((yb : Int) - yn) * 12 + ((mb : Int) - mn)) =
      (yb : Int) * 12 + ((mb : Int) - 1) := by
    unfold monthIndex
    dsimp only
    ring
  have hanchor : addMonths (Instant.mk (Date.mk yn mn dn) t)
      (((yb : Int) - yn) * 12 + ((mb : Int) - mn)) =
      Instant.mk (Date.mk yb mb (min dn (daysInMonth yb mb))) t :=
    addMonths_eq _ _ yb mb hbm1 hbm2 hidxA
  have hgap : anchorGap (Instant.mk (Date.mk yn mn dn) t) (Instant.mk (Date.mk yb mb db) 0) =
      ((db : Int) - (min dn (daysInMonth yb mb) : Nat)) * msPerDay - t := by
    unfold anchorGap
    rw [hW, hanchor]
    have hsame := toDays_same_ym yb mb db (min dn (daysInMonth yb mb))
    unfold msValue msPerDay at *
    dsimp only
    omega
  rcases lt_or_le (anchorGap (Instant.mk (Date.mk yn mn dn) t) (Instant.mk (Date.mk yb mb db) 0)) 0
    with hc | hc
  · -- the birthday instant lies before the anchor: previous-month span
    rcases Nat.lt_or_ge 1 mb with hmb2 | hmb2
    · -- mb ≥ 2: previous month is (yb, mb - 1)
      have hidx2 : monthIndex (Instant.mk (Date.mk yn mn dn) t)
          (((yb : Int) - yn) * 12 + ((mb : Int) - mn) - 1) =
          (yb : Int) * 12 + (((mb - 1 : Nat) : Int) - 1) := by
        unfold monthIndex
        dsimp only
        omega
      have hanchor2 : addMonths (Instant.mk (Date.mk yn mn dn) t)
          (((yb : Int) - yn) * 12 + ((mb : Int) - mn) - 1) =
          Instant.mk (Date.mk yb (mb - 1) (min dn (daysInMonth yb (mb - 1)))) t :=
        addMonths_eq _ _ yb (mb - 1) (by omega) (by omega) hidx2
      have hstep := toDays_next_month yb (mb - 1)
        (min dn (daysInMonth yb (mb - 1))) (min dn (daysInMonth yb mb)) (by omega)
      rw [show mb - 1 + 1 = mb from by omega] at hstep
      have hspan : monthSpan (Instant.mk (Date.mk yn mn dn) t) (Instant.mk (Date.mk yb mb db) 0) =
          ((daysInMonth yb (mb - 1) : Int) + (min dn (daysInMonth yb mb) : Nat) -
            (min dn (daysInMonth yb (mb - 1)) : Nat)) * msPerDay := by
        unfold monthSpan
        rw [if_pos hc, hW, hanchor, hanchor2]
        unfold msValue msPerDay
        dsimp only
        omega
      have hdimp := daysInMonth_bounds yb (mb - 1)
      exact calcAge_assemble yb mb db yn mn dn t (daysInMonth yb (mb - 1))
        (min dn (daysInMonth yb (mb - 1))) hbm1 hbm2 hnm1 hnm2 hbd1 hbd2 hnd1 ht hnoflip hlex hgap
        (by omega) (Or.inl ⟨hc, Nat.min_le_right _ _, hspan⟩)
    · -- mb = 1: previous month is December of the preceding year
      have hmb1 : mb = 1 := by omega
      subst hmb1
      have hidx2 : monthIndex (Instant.mk (Date.mk yn mn dn) t)
          (((yb : Int) - yn) * 12 + (((1 : Nat) : Int) - mn) - 1) =
          ((yb - 1 : Nat) : Int) * 12 + ((12 : Int) - 1) := by
        unfold monthIndex
        dsimp only
        omega
      have hanchor2 : addMonths (Instant.mk (Date.mk yn mn dn) t)
          (((yb : Int) - yn) * 12 + (((1 : Nat) : Int) - mn) - 1) =
          Instant.mk (Date.mk (yb - 1) 12 (min dn (daysInMonth (yb - 1) 12))) t :=
        addMonths_eq _ _ (yb - 1) 12 (by omega) (by omega) hidx2
      have hdim12 : daysInMonth (yb - 1) 12 = 31 := rfl
      have hstep := toDays_jan_next (yb - 1)
        (min dn (daysInMonth (yb - 1) 12)) (min dn (daysInMonth yb 1))
      rw [show yb - 1 + 1 = yb from by omega] at hstep
      have hspan : monthSpan (Instant.mk (Date.mk yn mn dn) t) (Instant.mk (Date.mk yb 1 db) 0) =
          ((31 : Int) + (min dn (daysInMonth yb 1) : Nat) -
            (min dn (daysInMonth (yb - 1) 12) : Nat)) * msPerDay := by
        unfold monthSpan
        rw [if_pos hc, hW, hanchor, hanchor2]
        unfold msValue msPerDay
        dsimp only
        omega
      exact calcAge_assemble yb 1 db yn mn dn t 31
        (min dn (daysInMonth (yb - 1) 12)) hbm1 hbm2 hnm1 hnm2 hbd1 hbd2 hnd1 ht hnoflip hlex hgap
        (by omega) (Or.inl ⟨hc, by omega, hspan⟩)
  · -- the birthday instant lies at or after the anchor: next-month span
    rcases Nat.lt_or_ge mb 12 with hmb2 | hmb2
    · -- mb ≤ 11: next month is (yb, mb + 1)
      have hidx3 : monthIndex (Instant.mk (Date.mk yn mn dn) t)
          (((yb : Int) - yn) * 12 + ((mb : Int) - mn) + 1) =
          (yb : Int) * 12 + (((mb + 1 : Nat) : Int) - 1) := by
        unfold monthIndex
        dsimp only
        omega
      have hanchor3 : addMonths (Instant.mk (Date.mk yn mn dn) t)
          (((yb : Int) - yn) * 12 + ((mb : Int) - mn) + 1) =
          Instant.mk (Date.mk yb (mb + 1) (min dn (daysInMonth yb (mb + 1)))) t :=
        addMonths_eq _ _ yb (mb + 1) (by omega) (by omega) hidx3
      have hstep := toDays_next_month yb mb
        (min dn (daysInMonth yb mb)) (min dn (daysInMonth yb (mb + 1))) (by omega)
      have hspan : monthSpan (Instant.mk (Date.mk yn mn dn) t) (Instant.mk (Date.mk yb mb db) 0) =
          ((daysInMonth yb mb : Int) + (min dn (daysInMonth yb (mb + 1)) : Nat) -
            (min dn (daysInMonth yb mb) : Nat)) * msPerDay := by
        unfold monthSpan
        rw [if_neg (not_lt.mpr hc), hW, hanchor, hanchor3]
        unfold msValue msPerDay
        dsimp only
        omega
      have hdimn := daysInMonth_bounds yb (mb + 1)
      exact calcAge_assemble yb mb db yn mn dn t (daysInMonth yb mb)
        (min dn (daysInMonth yb (mb + 1))) hbm1 hbm2 hnm1 hnm2 hbd1 hbd2 hnd1 ht hnoflip hlex hgap
        (by omega)
        (Or.inr ⟨hc, by omega, by omega, hspan⟩)
    · -- mb = 12: next month is January of the following year
      have hmb1 : mb = 12 := by omega
      subst hmb1
      have hidx3 : monthIndex (Instant.mk (Date.mk yn mn dn) t)
          (((yb : Int) - yn) * 12 + (((12 : Nat) : Int) - mn) + 1) =
          ((yb + 1 : Nat) : Int) * 12 + ((1 : Int) - 1) := by
        unfold monthIndex
        dsimp only
        omega
      have hanchor3 : addMonths (Instant.mk (Date.mk yn mn dn) t)
          (((yb : Int) - yn) * 12 + (((12 : Nat) : Int) - mn) + 1) =
          Instant.mk (Date.mk (yb + 1) 1 (min dn (daysInMonth (yb + 1) 1))) t :=
        addMonths_eq _ _ (yb + 1) 1 (by omega) (by omega) hidx3
      have hstep := toDays_jan_next yb
        (min dn (daysInMonth yb 12)) (min dn (daysInMonth (yb + 1) 1))
      have hdim12 : daysInMonth yb 12 = 31 := rfl
      have hspan : monthSpan (Instant.mk (Date.mk yn mn dn) t) (Instant.mk (Date.mk yb 12 db) 0) =
          ((31 : Int) + (min dn (daysInMonth (yb + 1) 1) : Nat) -
            (min dn (daysInMonth yb 12) : Nat)) * msPerDay := by
        unfold monthSpan
        rw [if_neg (not_lt.mpr hc), hW, hanchor, hanchor3]
        unfold msValue msPerDay
        dsimp only
        omega
      have hdimn := daysInMonth_bounds (yb + 1) 1
      exact calcAge_assemble yb 12 db yn mn dn t 31
        (min dn (daysInMonth (yb + 1) 1)) hbm1 hbm2 hnm1 hnm2 hbd1 hbd2 hnd1 ht hnoflip hlex hgap
        (by omega)
        (Or.inr ⟨hc, by omega, by omega, hspan⟩)

/-- Final assembly for the mirrored branch of the age computation
(`a.date() < b.date()` in dayjs `monthDiff`): given the anchor gap and the
anchor-month span in explicit form, the truncated `monthDiff/12` equals
the clamped completed-years count. -/
theorem calcAge_assemble_flip (yb mb db yn mn dn t L ad2 : Nat)
    (hbm1 : 1 ≤ mb) (hbm2 : mb ≤ 12) (hnm1 : 1 ≤ mn) (hnm2 : mn ≤ 12)
    (hbd1 : 1 ≤ db) (hnd1 : 1 ≤ dn) (hnd2 : dn ≤ daysInMonth yn mn)
    (ht : t < 86400000) (hflip : dn < db)
    (hlex : yb < yn ∨ (yb = yn ∧ (mb < mn ∨ (mb = mn ∧ db ≤ dn))))
    (hgap : anchorGap (Instant.mk (Date.mk yb mb db) 0) (Instant.mk (Date.mk yn mn dn) t) =
      ((dn : Int) - (min db (daysInMonth yn mn) : Nat)) * msPerDay + t)
    (had2a : 1 ≤ ad2)
    (hbr :
      (anchorGap (Instant.mk (Date.mk yb mb db) 0) (Instant.mk (Date.mk yn mn dn) t) < 0 ∧
        ad2 ≤ L ∧
        monthSpan (Instant.mk (Date.mk yb mb db) 0) (Instant.mk (Date.mk yn mn dn) t) =
          ((L : Int) + (min db (daysInMonth yn mn) : Nat) - ad2) * msPerDay) ∨
      (0 ≤ anchorGap (Instant.mk (Date.mk yb mb db) 0) (Instant.mk (Date.mk yn mn dn) t) ∧
        (dn : Int) ≤ L ∧ (min db (daysInMonth yn mn) : Int) ≤ L ∧
        monthSpan (Instant.mk (Date.mk yb mb db) 0) (Instant.mk (Date.mk yn mn dn) t) =
          ((L : Int) + (ad2 : Int) - (min db (daysInMonth yn mn) : Nat)) * msPerDay)) :
    calculateAge (Date.mk yb mb db) (Instant.mk (Date.mk yn mn dn) t) =
      ageSpecClamped (Date.mk yb mb db) (Date.mk yn mn dn) := by
  have hdimn := daysInMonth_bounds yn mn
  have had1 : 1 ≤ min db (daysInMonth yn mn) := by omega
  have hadm : min db (daysInMonth yn mn) ≤ daysInMonth yn mn := Nat.min_le_right _ _
  have hW : wholeMonthDiff (Instant.mk (Date.mk yb mb db) 0) (Instant.mk (Date.mk yn mn dn) t) =
      ((yn : Int) - yb) * 12 + ((mn : Int) - mb) := rfl
  have hCA : calculateAge (Date.mk yb mb db) (Instant.mk (Date.mk yn mn dn) t) =
      absFloorDiv
        ((12 * ((yn : Int) - yb) + ((mn : Int) - mb)) *
            monthSpan (Instant.mk (Date.mk yb mb db) 0) (Instant.mk (Date.mk yn mn dn) t) +
          anchorGap (Instant.mk (Date.mk yb mb db) 0) (Instant.mk (Date.mk yn mn dn) t))
        (12 * monthSpan (Instant.mk (Date.mk yb mb db) 0) (Instant.mk (Date.mk yn mn dn) t)) := by
    unfold calculateAge
    dsimp only
    rw [if_pos hflip, hW]
    congr 1
    ring
  have hS : 0 < monthSpan (Instant.mk (Date.mk yb mb db) 0) (Instant.mk (Date.mk yn mn dn) t) := by
    rcases hbr with ⟨_, had2b, hsp⟩ | ⟨_, _, hminL, hsp⟩ <;> rw [hsp] <;> unfold msPerDay <;> omega
  have hs1 : -monthSpan (Instant.mk (Date.mk yb mb db) 0) (Instant.mk (Date.mk yn mn dn) t) <
      anchorGap (Instant.mk (Date.mk yb mb db) 0) (Instant.mk (Date.mk yn mn dn) t) := by
    rcases hbr with ⟨hneg, had2b, hsp⟩ | ⟨hpos, hdnL, hminL, hsp⟩
    · rw [hsp, hgap]
      unfold msPerDay at *
      omega
    · rw [hsp]
      unfold msPerDay at *
      omega
  have hs2 : anchorGap (Instant.mk (Date.mk yb mb db) 0) (Instant.mk (Date.mk yn mn dn) t) <
      monthSpan (Instant.mk (Date.mk yb mb db) 0) (Instant.mk (Date.mk yn mn dn) t) := by
    rcases hbr with ⟨hneg, had2b, hsp⟩ | ⟨hpos, hdnL, hminL, hsp⟩
    · rw [hsp]
      unfold msPerDay at *
      omega
    · rw [hsp, hgap]
      unfold msPerDay at *
      omega
  have hdy1 : 1 ≤ (mn : Int) - mb → 0 ≤ (yn : Int) - yb := by intro h; omega
  have hdy2 : (mn : Int) - mb ≤ -1 → 1 ≤ (yn : Int) - yb := by intro h; omega
  have hdy3 : (mn : Int) - mb = 0 →
      0 ≤ anchorGap (Instant.mk (Date.mk yb mb db) 0) (Instant.mk (Date.mk yn mn dn) t) →
      0 ≤ (yn : Int) - yb := by
    intro h1 h2; omega
  have hdy4 : (mn : Int) - mb = 0 →
      anchorGap (Instant.mk (Date.mk yb mb db) 0) (Instant.mk (Date.mk yn mn dn) t) < 0 →
      1 ≤ (yn : Int) - yb := by
    intro h1 h2; omega
  have hfin := ageArith
    (monthSpan (Instant.mk (Date.mk yb mb db) 0) (Instant.mk (Date.mk yn mn dn) t))
    ((yn : Int) - yb) ((mn : Int) - mb)
    (anchorGap (Instant.mk (Date.mk yb mb db) 0) (Instant.mk (Date.mk yn mn dn) t))
    hS hs1 hs2 (by omega) (by omega) hdy1 hdy2 hdy3 hdy4
  rw [hCA, hfin]
  unfold ageSpecClamped
  dsimp only
  have hmd : mdPrecedesClamped (Date.mk yn mn dn) (Date.mk yb mb db) = true ↔
      (mn < mb ∨ (mn = mb ∧ dn < db ∧ dn ≠ daysInMonth yn mn)) := by
    simp [mdPrecedesClamped, and_assoc]
  by_cases hP : mn < mb ∨ (mn = mb ∧ dn < db ∧ dn ≠ daysInMonth yn mn)
  · have hcond : (mn : Int) - mb < 0 ∨ ((mn : Int) - mb = 0 ∧
        anchorGap (Instant.mk (Date.mk yb mb db) 0) (Instant.mk (Date.mk yn mn dn) t) < 0) := by
      rcases hP with h | ⟨h1, h2, h3⟩
      · exact Or.inl (by omega)
      · refine Or.inr ⟨by omega, ?_⟩
        rw [hgap]
        unfold msPerDay
        omega
    rw [if_pos hcond, if_pos (hmd.mpr hP)]
  · have hcond : ¬((mn : Int) - mb < 0 ∨ ((mn : Int) - mb = 0 ∧
        anchorGap (Instant.mk (Date.mk yb mb db) 0) (Instant.mk (Date.mk yn mn dn) t) < 0)) := by
      intro hcc
      rw [hgap] at hcc
      unfold msPerDay at hcc
      omega
    rw [if_neg hcond, if_neg (fun hcc => hP (hmd.mp hcc))]

/-- The dayjs year diff (`calculateAge`) in the mirrored branch (`now`'s
day-of-month strictly below the birthday's) equals the clamped
completed-birthdays count, stated on explicit date components. -/
theorem calcAge_core_flip (yb mb db yn mn dn t : Nat)
    (hby : 1 ≤ yb) (hbm1 : 1 ≤ mb) (hbm2 : mb ≤ 12) (hbd1 : 1 ≤ db)
    (hbd2 : db ≤ daysInMonth yb mb)
    (hny : 1 ≤ yn) (hnm1 : 1 ≤ mn) (hnm2 : mn ≤ 12) (hnd1 : 1 ≤ dn)
    (hnd2 : dn ≤ daysInMonth yn mn)
    (ht : t < 86400000) (hflip : dn < db)
    (hle : msValue (Instant.mk (Date.mk yb mb db) 0) ≤
      msValue (Instant.mk (Date.mk yn mn dn) t)) :
    calculateAge (Date.mk yb mb db) (Instant.mk (Date.mk yn mn dn) t) =
      ageSpecClamped (Date.mk yb mb db) (Date.mk yn mn dn) := by
  have hdimn := daysInMonth_bounds yn mn
  have hlex : yb < yn ∨ (yb = yn ∧ (mb < mn ∨ (mb = mn ∧ db ≤ dn))) := by
    by_contra hcon
    have hlt : toDays (Date.mk yn mn dn) < toDays (Date.mk yb mb db) := by
      apply toDays_lt_of_dateLt _ _ ⟨hny, hnm1, hnm2, hnd1, hnd2⟩
        ⟨hby, hbm1, hbm2, hbd1, hbd2⟩
      dsimp only
      omega
    unfold msValue msPerDay at hle
    dsimp only at hle
    omega
  have hW : wholeMonthDiff (Instant.mk (Date.mk yb mb db) 0) (Instant.mk (Date.mk yn mn dn) t) =
      ((yn : Int) - yb) * 12 + ((mn : Int) - mb) := rfl
  have hidxA : monthIndex (Instant.mk (Date.mk yb mb db) 0)
      (((yn : Int) - yb) * 12 + ((mn : Int) - mb)) =
      (yn : Int) * 12 + ((mn : Int) - 1) := by
    unfold monthIndex
    dsimp only
    ring
  have hanchor : addMonths (Instant.mk (Date.mk yb mb db) 0)
      (((yn : Int) - yb) * 12 + ((mn : Int) - mb)) =
      Instant.mk (Date.mk yn mn (min db (daysInMonth yn mn))) 0 :=
    addMonths_eq _ _ yn mn hnm1 hnm2 hidxA
  have hgap : anchorGap (Instant.mk (Date.mk yb mb db) 0) (Instant.mk (Date.mk yn mn dn) t) =
      ((dn : Int) - (min db (daysInMonth yn mn) : Nat)) * msPerDay + t := by
    unfold anchorGap
    rw [hW, hanchor]
    have hsame := toDays_same_ym yn mn dn (min db (daysInMonth yn mn))
    unfold msValue msPerDay at *
    dsimp only
    omega
  rcases lt_or_le (anchorGap (Instant.mk (Date.mk yb mb db) 0) (Instant.mk (Date.mk yn mn dn) t)) 0
    with hc | hc
  · -- `now` lies before the anchor: previous-month span
    rcases Nat.lt_or_ge 1 mn with hmn2 | hmn2
    · -- mn ≥ 2: previous month is (yn, mn - 1)
      have hidx2 : monthIndex (Instant.mk (Date.mk yb mb db) 0)
          (((yn : Int) - yb) * 12 + ((mn : Int) - mb) - 1) =
          (yn : Int) * 12 + (((mn - 1 : Nat) : Int) - 1) := by
        unfold monthIndex
        dsimp only
        omega
      have hanchor2 : addMonths (Instant.mk (Date.mk yb mb db) 0)
          (((yn : Int) - yb) * 12 + ((mn : Int) - mb) - 1) =
          Instant.mk (Date.mk yn (mn - 1) (min db (daysInMonth yn (mn - 1)))) 0 :=
        addMonths_eq _ _ yn (mn - 1) (by omega) (by omega) hidx2
      have hstep := toDays_next_month yn (mn - 1)
        (min db (daysInMonth yn (mn - 1))) (min db (daysInMonth yn mn)) (by omega)
      rw [show mn - 1 + 1 = mn from by omega] at hstep
      have hspan : monthSpan (Instant.mk (Date.mk yb mb db) 0) (Instant.mk (Date.mk yn mn dn) t) =
          ((daysInMonth yn (mn - 1) : Int) + (min db (daysInMonth yn mn) : Nat) -
            (min db (daysInMonth yn (mn - 1)) : Nat)) * msPerDay := by
        unfold monthSpan
        rw [if_pos hc, hW, hanchor, hanchor2]
        unfold msValue msPerDay
        dsimp only
        omega
      have hdimp := daysInMonth_bounds yn (mn - 1)
      exact calcAge_assemble_flip yb mb db yn mn dn t (daysInMonth yn (mn - 1))
        (min db (daysInMonth yn (mn - 1))) hbm1 hbm2 hnm1 hnm2 hbd1 hnd1 hnd2 ht hflip hlex hgap
        (by omega) (Or.inl ⟨hc, Nat.min_le_right _ _, hspan⟩)
    · -- mn = 1: previous month is December of the preceding year
      have hmn1 : mn = 1 := by omega
      subst hmn1
      have hidx2 : monthIndex (Instant.mk (Date.mk yb mb db) 0)
          (((yn : Int) - yb) * 12 + (((1 : Nat) : Int) - mb) - 1) =
          ((yn - 1 : Nat) : Int) * 12 + ((12 : Int) - 1) := by
        unfold monthIndex
        dsimp only
        omega
      have hanchor2 : addMonths (Instant.mk (Date.mk yb mb db) 0)
          (((yn : Int) - yb) * 12 + (((1 : Nat) : Int) - mb) - 1) =
          Instant.mk (Date.mk (yn - 1) 12 (min db (daysInMonth (yn - 1) 12))) 0 :=
        addMonths_eq _ _ (yn - 1) 12 (by omega) (by omega) hidx2
      have hdim12 : daysInMonth (yn - 1) 12 = 31 := rfl
      have hstep := toDays_jan_next (yn - 1)
        (min db (daysInMonth (yn - 1) 12)) (min db (daysInMonth yn 1))
      rw [show yn - 1 + 1 = yn from by omega] at hstep
      have hspan : monthSpan (Instant.mk (Date.mk yb mb db) 0) (Instant.mk (Date.mk yn 1 dn) t) =
          ((31 : Int) + (min db (daysInMonth yn 1) : Nat) -
            (min db (daysInMonth (yn - 1) 12) : Nat)) * msPerDay := by
        unfold monthSpan
        rw [if_pos hc, hW, hanchor, hanchor2]
        unfold msValue msPerDay
        dsimp only
        omega
      exact calcAge_assemble_flip yb mb db yn 1 dn t 31
        (min db (daysInMonth (yn - 1) 12)) hbm1 hbm2 hnm1 hnm2 hbd1 hnd1 hnd2 ht hflip hlex hgap
        (by omega) (Or.inl ⟨hc, by omega, hspan⟩)
  · -- `now` lies at or after the anchor: next-month span
    rcases Nat.lt_or_ge mn 12 with hmn2 | hmn2
    · -- mn ≤ 11: next month is (yn, mn + 1)
      have hidx3 : monthIndex (Instant.mk (Date.mk yb mb db) 0)
          (((yn : Int) - yb) * 12 + ((mn : Int) - mb) + 1) =
          (yn : Int) * 12 + (((mn + 1 : Nat) : Int) - 1) := by
        unfold monthIndex
        dsimp only
        omega
      have hanchor3 : addMonths (Instant.mk (Date.mk yb mb db) 0)
          (((yn : Int) - yb) * 12 + ((mn : Int) - mb) + 1) =
          Instant.mk (Date.mk yn (mn + 1) (min db (daysInMonth yn (mn + 1)))) 0 :=
        addMonths_eq _ _ yn (mn + 1) (by omega) (by omega) hidx3
      have hstep := toDays_next_month yn mn
        (min db (daysInMonth yn mn)) (min db (daysInMonth yn (mn + 1))) (by omega)
      have hspan : monthSpan (Instant.mk (Date.mk yb mb db) 0) (Instant.mk (Date.mk yn mn dn) t) =
          ((daysInMonth yn mn : Int) + (min db (daysInMonth yn (mn + 1)) : Nat) -
            (min db (daysInMonth yn mn) : Nat)) * msPerDay := by
        unfold monthSpan
        rw [if_neg (not_lt.mpr hc), hW, hanchor, hanchor3]
        unfold msValue msPerDay
        dsimp only
        omega
      have hdimn2 := daysInMonth_bounds yn (mn + 1)
      exact calcAge_assemble_flip yb mb db yn mn dn t (daysInMonth yn mn)
        (min db (daysInMonth yn (mn + 1))) hbm1 hbm2 hnm1 hnm2 hbd1 hnd1 hnd2 ht hflip hlex hgap
        (by omega)
        (Or.inr ⟨hc, by omega, by omega, hspan⟩)
    · -- mn = 12: next month is January of the following year
      have hmn1 : mn = 12 := by omega
      subst hmn1
      have hidx3 : monthIndex (Instant.mk (Date.mk yb mb db) 0)
          (((yn : Int) - yb) * 12 + (((12 : Nat) : Int) - mb) + 1) =
          ((yn + 1 : Nat) : Int) * 12 + ((1 : Int) - 1) := by
        unfold monthIndex
        dsimp only
        omega
      have hanchor3 : addMonths (Instant.mk (Date.mk yb mb db) 0)
          (((yn : Int) - yb) * 12 + (((12 : Nat) : Int) - mb) + 1) =
          Instant.mk (Date.mk (yn + 1) 1 (min db (daysInMonth (yn + 1) 1))) 0 :=
        addMonths_eq _ _ (yn + 1) 1 (by omega) (by omega) hidx3
      have hstep := toDays_jan_next yn
        (min db (daysInMonth yn 12)) (min db (daysInMonth (yn + 1) 1))
      have hdim12 : daysInMonth yn 12 = 31 := rfl
      have hspan : monthSpan (Instant.mk (Date.mk yb mb db) 0) (Instant.mk (Date.mk yn 12 dn) t) =
          ((31 : Int) + (min db (daysInMonth (yn + 1) 1) : Nat) -
            (min db (daysInMonth yn 12) : Nat)) * msPerDay := by
        unfold monthSpan
        rw [if_neg (not_lt.mpr hc), hW, hanchor, hanchor3]
        unfold msValue msPerDay
        dsimp only
        omega
      have hdimn2 := daysInMonth_bounds (yn + 1) 1
      exact calcAge_assemble_flip yb mb db yn 12 dn t 31
        (min db (daysInMonth (yn + 1) 1)) hbm1 hbm2 hnm1 hnm2 hbd1 hnd1 hnd2 ht hflip hlex hgap
        (by omega)
        (Or.inr ⟨hc, by omega, by omega, hspan⟩)

/-- When `now`'s day-of-month is at least the birthday's, the plain and
the clamped specification orders agree. -/
theorem ageSpec_eq_clamped (yb mb db yn mn dn : Nat) (h : db ≤ dn) :
    ageSpec (Date.mk yb mb db) (Date.mk yn mn dn) =
      ageSpecClamped (Date.mk yb mb db) (Date.mk yn mn dn) := by
  have h1 : mdPrecedesClamped (Date.mk yn mn dn) (Date.mk yb mb db) =
      mdPrecedes (Date.mk yn mn dn) (Date.mk yb mb db) := by
    simp [mdPrecedes, mdPrecedesClamped, decide_eq_false (show ¬dn < db from by omega)]
  unfold ageSpec ageSpecClamped
  rw [h1]

/-- The dayjs year diff equals the clamped completed-birthdays count on
explicit date components, for every valid pair with the birthday not after
`now`: the two `monthDiff` branches assembled. -/
theorem calcAge_clamped (yb mb db yn mn dn t : Nat)
    (hby : 1 ≤ yb) (hbm1 : 1 ≤ mb) (hbm2 : mb ≤ 12) (hbd1 : 1 ≤ db)
    (hbd2 : db ≤ daysInMonth yb mb)
    (hny : 1 ≤ yn) (hnm1 : 1 ≤ mn) (hnm2 : mn ≤ 12) (hnd1 : 1 ≤ dn)
    (hnd2 : dn ≤ daysInMonth yn mn)
    (ht : t < 86400000)
    (hle : msValue (Instant.mk (Date.mk yb mb db) 0) ≤
      msValue (Instant.mk (Date.mk yn mn dn) t)) :
    calculateAge (Date.mk yb mb db) (Instant.mk (Date.mk yn mn dn) t) =
      ageSpecClamped (Date.mk yb mb db) (Date.mk yn mn dn) := by
  rcases Nat.lt_or_ge dn db with hflip | hnoflip
  · exact calcAge_core_flip yb mb db yn mn dn t hby hbm1 hbm2 hbd1 hbd2 hny hnm1 hnm2 hnd1 hnd2
      ht hflip hle
  · rw [calcAge_core yb mb db yn mn dn t hby hbm1 hbm2 hbd1 hbd2 hny hnm1 hnm2 hnd1 hnd2
      ht hnoflip hle]
    exact ageSpec_eq_clamped yb mb db yn mn dn hnoflip

/-- A date at midnight has a timestamp that is an exact multiple of a day. -/
theorem msValue_midnight (d : Date) : msValue (Instant.mk d 0) = toDays d * msPerDay := by
  unfold msValue
  simp

/-- Membership in `getUpcomingBirthdays`, unfolded to timestamp
comparisons. -/
theorem mem_getUpcomingBirthdays_iff (people : List Person) (now : Instant) (p : Person) :
    p ∈ getUpcomingBirthdays people now ↔
      p ∈ people ∧
      ((msValue now < msValue (Instant.mk (setYear p.birthday now.date.year) 0) ∧
        msValue (Instant.mk (setYear p.birthday now.date.year) 0) < msValue (addDaysI now 30)) ∨
       (msValue now < msValue (Instant.mk (setYear p.birthday (now.date.year + 1)) 0) ∧
        msValue (Instant.mk (setYear p.birthday (now.date.year + 1)) 0) < msValue (addDaysI now 30))) := by
  unfold getUpcomingBirthdays
  rw [List.mem_filter]
  simp only [Bool.or_eq_true, Bool.and_eq_true, decide_eq_true_eq, gt_iff_lt]

/-- C1: on the birthday itself (now = 2024-03-15, birthday 1985-03-15) the
code does NOT return 0: `today` keeps its time of day, so this year's
occurrence (midnight) is never strictly after `today`, the engine defers to
next year's occurrence, and `daysUntil` evaluates to 365 at midnight and
364 at noon.  The claim (and the UI's own `days === 0` "Today!" badge)
expect 0 on the birthday. -/
theorem c1_same_day_code_behavior :
    getDaysUntilBirthday ⟨1985, 3, 15⟩ ⟨⟨2024, 3, 15⟩, 0⟩ = 365 ∧
    getDaysUntilBirthday ⟨1985, 3, 15⟩ ⟨⟨2024, 3, 15⟩, 43200000⟩ = 364 ∧
    nextOccurrence ⟨1985, 3, 15⟩ ⟨⟨2024, 3, 15⟩, 0⟩ = ⟨2025, 3, 15⟩ := by
  exact ⟨by decide, by decide, by decide⟩

/-- C3 counterexample: a birthday later than `now` does not raise any
`InvalidDateError` — no error path exists in the code — instead
`calculateAge` silently returns the plain integer -5 for birthday
2030-01-01 at now 2024-03-15, refuting "signaled as an InvalidDateError,
never silently coerced". -/
theorem c3_counterexample :
    calculateAge ⟨2030, 1, 1⟩ ⟨⟨2024, 3, 15⟩, 0⟩ = -5 := by decide

/-- C3 (amended): the engine defines no error channel and never raises:
every function is total.  A birthday later than `now` is silently accepted:
`calculateAge` returns a plain integer (-5 for 2030-01-01, 0 for a birthday
one day ahead), and `nextOccurrence` silently re-anchors the future
birthday's month/day (2030-01-01 becomes 2025-01-01). -/
theorem c3_amended_no_error_channel :
    calculateAge ⟨2030, 1, 1⟩ ⟨⟨2024, 3, 15⟩, 0⟩ = -5 ∧
    calculateAge ⟨2024, 3, 16⟩ ⟨⟨2024, 3, 15⟩, 0⟩ = 0 ∧
    nextOccurrence ⟨2030, 1, 1⟩ ⟨⟨2024, 3, 15⟩, 0⟩ = ⟨2025, 1, 1⟩ ∧
    getDaysUntilBirthday ⟨2030, 1, 1⟩ ⟨⟨2024, 3, 15⟩, 0⟩ = 292 := by
  exact ⟨by decide, by decide, by decide, by decide⟩

/-- C4: the engine inherits dayjs's single deterministic leap-day fallback:
re-anchoring Feb 29 to year `y` clamps the day to `daysInMonth y 2`, i.e.
Feb 28 in a non-leap year and Feb 29 in a leap year.  In the scenario
(birthday 2000-02-29, now = 2023-03-01) this rule is applied consistently:
`calculateAge` already counts the clamped 2023 occurrence (age 23 on
2023-03-01 and on the fallback date 2023-02-28 itself — monthDiff's mirror
guard anchors Feb 29 to Feb 28 — while 2023-02-27 still gives 22),
`daysUntil` measures to Feb 29 2024 (365 days), and the upcoming filter
agrees (365 > 30, not upcoming). -/
theorem c4_leap_day_fallback :
    (∀ y : Nat, setYear ⟨2000, 2, 29⟩ y =
      ⟨y, 2, if isLeapYear y = true then 29 else 28⟩) ∧
    getDaysUntilBirthday ⟨2000, 2, 29⟩ ⟨⟨2023, 3, 1⟩, 0⟩ = 365 ∧
    calculateAge ⟨2000, 2, 29⟩ ⟨⟨2023, 3, 1⟩, 0⟩ = 23 ∧
    calculateAge ⟨2000, 2, 29⟩ ⟨⟨2023, 2, 28⟩, 0⟩ = 23 ∧
    calculateAge ⟨2000, 2, 29⟩ ⟨⟨2023, 2, 27⟩, 0⟩ = 22 ∧
    getUpcomingBirthdays [⟨1, ⟨2000, 2, 29⟩⟩] ⟨⟨2023, 3, 1⟩, 0⟩ = [] := by
  refine ⟨fun y => ?_, by decide, by decide, by decide, by decide, by decide⟩
  unfold setYear daysInMonth
  cases h : isLeapYear y <;> simp [h]

/-- C5: the upcoming-birthday window spans the year boundary: with
now = 2024-12-20, a person with birthday 1990-01-05 is kept by
`getUpcomingBirthdays` (from any list containing them) and their
`daysUntil` is 16. -/
theorem c5_year_boundary :
    (∀ people : List Person, (⟨1, ⟨1990, 1, 5⟩⟩ : Person) ∈ people →
      (⟨1, ⟨1990, 1, 5⟩⟩ : Person) ∈ getUpcomingBirthdays people ⟨⟨2024, 12, 20⟩, 0⟩) ∧
    getDaysUntilBirthday ⟨1990, 1, 5⟩ ⟨⟨2024, 12, 20⟩, 0⟩ = 16 := by
  refine ⟨fun people hp => ?_, by decide⟩
  exact List.mem_filter.mpr ⟨hp, by decide⟩

/-- C5 witness: the year-boundary person in a concrete two-person list. -/
theorem c5_year_boundary_witness :
    (⟨1, ⟨1990, 1, 5⟩⟩ : Person) ∈
      getUpcomingBirthdays [⟨0, ⟨1970, 7, 1⟩⟩, ⟨1, ⟨1990, 1, 5⟩⟩] ⟨⟨2024, 12, 20⟩, 0⟩ :=
  c5_year_boundary.1 [⟨0, ⟨1970, 7, 1⟩⟩, ⟨1, ⟨1990, 1, 5⟩⟩] (by decide)

/-- C2 counterexample: with now = 2024-12-20 (windowDays = 30), a person
with birthday 1990-01-19 has `daysUntil` exactly 30 yet is NOT returned:
the filter requires the occurrence strictly before `today.add(30, 'day')`,
so the claimed inclusive upper bound fails. -/
theorem c2_counterexample :
    getDaysUntilBirthday ⟨1990, 1, 19⟩ ⟨⟨2024, 12, 20⟩, 0⟩ = 30 ∧
    getUpcomingBirthdays [⟨1, ⟨1990, 1, 19⟩⟩] ⟨⟨2024, 12, 20⟩, 0⟩ = [] := by
  exact ⟨by decide, by decide⟩

/-- C6: `daysUntil` always measures to the occurrence selected by
`nextOccurrence`; whenever this year's re-anchored occurrence is not
strictly after `now`, `nextOccurrence` is next year's occurrence; in the
just-passed scenario (now = 2024-03-16, birthday 1985-03-15) the next
occurrence is 2025-03-15 and `daysUntil` is 364. -/
theorem c6_deferral_to_next_year :
    (∀ (b : Date) (n : Instant),
      getDaysUntilBirthday b n = diffDay (Instant.mk (nextOccurrence b n) 0) n) ∧
    (∀ (b : Date) (n : Instant),
      msValue (Instant.mk (setYear b n.date.year) 0) ≤ msValue n →
      nextOccurrence b n = setYear b (n.date.year + 1)) ∧
    nextOccurrence ⟨1985, 3, 15⟩ ⟨⟨2024, 3, 16⟩, 0⟩ = ⟨2025, 3, 15⟩ ∧
    getDaysUntilBirthday ⟨1985, 3, 15⟩ ⟨⟨2024, 3, 16⟩, 0⟩ = 364 := by
  refine ⟨fun b n => ?_, fun b n h => ?_, by decide, by decide⟩
  · unfold getDaysUntilBirthday nextOccurrence
    split <;> rfl
  · unfold nextOccurrence
    exact if_neg (not_lt.mpr h)

/-- C6 witness: the deferral rule applied at the just-passed scenario. -/
theorem c6_deferral_witness :
    nextOccurrence ⟨1985, 3, 15⟩ ⟨⟨2024, 3, 16⟩, 0⟩ = setYear ⟨1985, 3, 15⟩ 2025 :=
  c6_deferral_to_next_year.2.1 ⟨1985, 3, 15⟩ ⟨⟨2024, 3, 16⟩, 0⟩ (by decide)

/-- C9: the delete action is a stub: for every id the trace of store calls
it issues is just `Person.list()` (from the reload); replaying the trace
against any stored record list leaves it unchanged, and no call in the
trace is a mutating endpoint. -/
theorem c9_delete_is_stub :
    ∀ (pid : Nat) (store : List Person),
      List.foldl applyCall store (handleDeleteCalls pid) = store ∧
      (handleDeleteCalls pid).all (fun c => !c.mutates) = true := by
  intro pid store
  exact ⟨rfl, rfl⟩

/-- C10: when `Person.list()` fails — either the response has
`success = false` or the call throws (caught and logged) — `loadPeople`
leaves the `people` state unchanged and still resets `loading` to false. -/
theorem c10_load_failure_state :
    ∀ s : UIState,
      (loadPeople s ListOutcome.unsuccessful).people = s.people ∧
      (loadPeople s ListOutcome.unsuccessful).loading = false ∧
      (loadPeople s ListOutcome.thrown).people = s.people ∧
      (loadPeople s ListOutcome.thrown).loading = false := by
  intro s
  exact ⟨rfl, rfl, rfl, rfl⟩

/-- C7 counterexample: at the valid, in-domain pair birthday 2000-02-29,
now 2023-02-28 (birthday not after now), `calculateAge` (dayjs
`diff(_, 'year')`, whose `monthDiff` mirrors the pair when `now`'s
day-of-month is below the birthday's) returns 23, while the claimed
completed-birthdays count (current year excluded because Feb 28 precedes
Feb 29) is 22. -/
theorem c7_counterexample :
    validDate ⟨2000, 2, 29⟩ ∧ validDate ⟨2023, 2, 28⟩ ∧
    msValue (Instant.mk ⟨2000, 2, 29⟩ 0) ≤ msValue ⟨⟨2023, 2, 28⟩, 0⟩ ∧
    calculateAge ⟨2000, 2, 29⟩ ⟨⟨2023, 2, 28⟩, 0⟩ = 23 ∧
    ageSpec ⟨2000, 2, 29⟩ ⟨2023, 2, 28⟩ = 22 :=
  ⟨by decide, by decide, by decide, by decide, by decide⟩

/-- C7 (amended): for every valid birthday `b` and instant `n` with
`b ≤ n`, `calculateAge` returns the completed-birthdays count under the
clamped order: the current year is excluded exactly when `n`'s month/day
precedes `b`'s month/day AND `n`'s day is not the last day of `n`'s month
— a birthday day beyond the end of `n`'s month (a Feb 29 birthday in a
non-leap year) already counts as reached on that month's last day;
concretely 39 for birthday 1985-03-15 at now = 2024-03-15, and 23 (not 22)
for birthday 2000-02-29 at now = 2023-02-28. -/
theorem c7_age_clamped_completed_birthdays :
    (∀ (b : Date) (n : Instant), validDate b → validDate n.date →
      n.msOfDay < 86400000 →
      msValue (Instant.mk b 0) ≤ msValue n →
      calculateAge b n = ageSpecClamped b n.date) ∧
    calculateAge ⟨1985, 3, 15⟩ ⟨⟨2024, 3, 15⟩, 0⟩ = 39 ∧
    calculateAge ⟨2000, 2, 29⟩ ⟨⟨2023, 2, 28⟩, 0⟩ = 23 := by
  refine ⟨fun b n hb hn ht hle => ?_, by decide, by decide⟩
  obtain ⟨yb, mb, db⟩ := b
  obtain ⟨⟨yn, mn, dn⟩, t⟩ := n
  obtain ⟨hby, hbm1, hbm2, hbd1, hbd2⟩ := hb
  obtain ⟨hny, hnm1, hnm2, hnd1, hnd2⟩ := hn
  exact calcAge_clamped yb mb db yn mn dn t hby hbm1 hbm2 hbd1 hbd2 hny hnm1 hnm2 hnd1 hnd2 ht hle

/-- C7 witness: the clamped completed-birthdays equation applied at the
same-day scenario (birthday 1985-03-15, now 2024-03-15). -/
theorem c7_age_witness :
    calculateAge ⟨1985, 3, 15⟩ ⟨⟨2024, 3, 15⟩, 0⟩ =
      ageSpecClamped ⟨1985, 3, 15⟩ ⟨2024, 3, 15⟩ :=
  c7_age_clamped_completed_birthdays.1 ⟨1985, 3, 15⟩ ⟨⟨2024, 3, 15⟩, 0⟩
    (by decide) (by decide) (by decide) (by decide)

/-- C8: `getUpcomingBirthdays` is a stable filter: its result is a sublist
of the input (order preserved, no re-sort), and every returned person with
a well-formed birthday has `daysUntil` within the 30-day window (indeed in
[0, 29], hence at most the default windowDays = 30, the only window the
code has). -/
theorem c8_stable_filter :
    ∀ (people : List Person) (now : Instant), validDate now.date →
      List.Sublist (getUpcomingBirthdays people now) people ∧
      (∀ p, p ∈ getUpcomingBirthdays people now → validDate p.birthday →
        0 ≤ getDaysUntilBirthday p.birthday now ∧
          getDaysUntilBirthday p.birthday now ≤ 30) := by
  intro people now hnow
  refine ⟨List.filter_sublist _, fun p hp hpb => ?_⟩
  have hmem := ((mem_getUpcomingBirthdays_iff people now p).mp hp).2
  have h30 := msValue_addDaysI now hnow 30
  have hyy := msValue_setYear_succ_lt p.birthday hpb now.date.year
  rw [h30] at hmem
  unfold getDaysUntilBirthday diffDay
  split_ifs with hc
  · have hlt : msValue (Instant.mk (setYear p.birthday now.date.year) 0) <
        msValue now + (30 : Nat) * msPerDay := by
      rcases hmem with ⟨h1, h2⟩ | ⟨h3, h4⟩
      · exact h2
      · omega
    have hw := absFloorDiv_window
      (msValue (Instant.mk (setYear p.birthday now.date.year) 0) - msValue now)
      (by omega) (by unfold msPerDay at *; omega)
    omega
  · have hnn : msValue now <
        msValue (Instant.mk (setYear p.birthday (now.date.year + 1)) 0) ∧
        msValue (Instant.mk (setYear p.birthday (now.date.year + 1)) 0) <
          msValue now + (30 : Nat) * msPerDay := by
      rcases hmem with ⟨h1, h2⟩ | ⟨h3, h4⟩
      · exact absurd h1 hc
      · exact ⟨h3, h4⟩
    have hw := absFloorDiv_window
      (msValue (Instant.mk (setYear p.birthday (now.date.year + 1)) 0) - msValue now)
      (by omega) (by unfold msPerDay at *; omega)
    omega

/-- C8 witness: the stable-filter bounds at a concrete person and instant. -/
theorem c8_stable_filter_witness :
    0 ≤ getDaysUntilBirthday ⟨1990, 1, 5⟩ ⟨⟨2024, 12, 20⟩, 0⟩ ∧
      getDaysUntilBirthday ⟨1990, 1, 5⟩ ⟨⟨2024, 12, 20⟩, 0⟩ ≤ 30 :=
  (c8_stable_filter [⟨1, ⟨1990, 1, 5⟩⟩] ⟨⟨2024, 12, 20⟩, 0⟩ (by decide)).2
    ⟨1, ⟨1990, 1, 5⟩⟩ (by decide) (by decide)

/-- C2 (amended): with `now` at midnight, `getUpcomingBirthdays` keeps
exactly the persons whose `daysUntil` lies in [1, 29] — not the claimed
inclusive [0, 30] window: `daysUntil` = 30 is excluded (strict `isBefore`),
and a birthday falling today is excluded as well (its `daysUntil` is
365/366, never 0, per C1). -/
theorem c2_amended_window :
    ∀ (people : List Person) (now : Instant) (p : Person),
      validDate now.date → now.msOfDay = 0 → validDate p.birthday →
      (p ∈ getUpcomingBirthdays people now ↔
        p ∈ people ∧ 1 ≤ getDaysUntilBirthday p.birthday now ∧
          getDaysUntilBirthday p.birthday now ≤ 29) := by
  intro people now p hnow hmid hpb
  rw [mem_getUpcomingBirthdays_iff]
  apply and_congr_right
  intro _
  have h30 := msValue_addDaysI now hnow 30
  have hyy := msValue_setYear_succ_lt p.birthday hpb now.date.year
  have e0 : msValue now = toDays now.date * msPerDay := by
    unfold msValue
    rw [hmid]
    simp
  have e1 := msValue_midnight (setYear p.birthday now.date.year)
  have e2 := msValue_midnight (setYear p.birthday (now.date.year + 1))
  rw [h30]
  unfold getDaysUntilBirthday diffDay
  rw [e1, e2] at hyy
  rw [e0, e1, e2]
  rw [show toDays (setYear p.birthday now.date.year) * msPerDay -
      toDays now.date * msPerDay =
      (toDays (setYear p.birthday now.date.year) - toDays now.date) * msPerDay
    from by ring]
  rw [show toDays (setYear p.birthday (now.date.year + 1)) * msPerDay -
      toDays now.date * msPerDay =
      (toDays (setYear p.birthday (now.date.year + 1)) - toDays now.date) * msPerDay
    from by ring]
  rw [absFloorDiv_mul_msPerDay, absFloorDiv_mul_msPerDay]
  unfold msPerDay at *
  split_ifs with hc <;> omega

/-- C2 amended-claim witness: the window characterisation applied at the
year-boundary scenario (daysUntil = 16 lies in [1, 29], so the person is
kept). -/
theorem c2_amended_window_witness :
    (⟨1, ⟨1990, 1, 5⟩⟩ : Person) ∈
        getUpcomingBirthdays [⟨1, ⟨1990, 1, 5⟩⟩] ⟨⟨2024, 12, 20⟩, 0⟩ ↔
      (⟨1, ⟨1990, 1, 5⟩⟩ : Person) ∈ ([⟨1, ⟨1990, 1, 5⟩⟩] : List Person) ∧
        1 ≤ getDaysUntilBirthday ⟨1990, 1, 5⟩ ⟨⟨2024, 12, 20⟩, 0⟩ ∧
        getDaysUntilBirthday ⟨1990, 1, 5⟩ ⟨⟨2024, 12, 20⟩, 0⟩ ≤ 29 :=
  c2_amended_window [⟨1, ⟨1990, 1, 5⟩⟩] ⟨⟨2024, 12, 20⟩, 0⟩ ⟨1, ⟨1990, 1, 5⟩⟩
    (by decide) rfl (by decide)
